import Mathlib

/-!
Shallow embedding of `pyLBM/geometry.py`: box parsing (`get_box`), label
resolution, periodicity derivation, the domain decomposition of the global
bounds, the interface-override pass on the face labels, the element registry
(`add_elem`) and label enumeration (`list_of_labels`).

Machine floating point (numpy `f8`) is embedded as exact rational arithmetic
`ℚ`; the process topology (`Interface` / `cartcomm`, whose module is not part
of the sources) is abstracted to the data the geometry code reads from it:
split factors, this-process coordinates, and per-axis neighbor flags.
-/

namespace PyLBM

/-- A geometric element of the registry.  Modelled from the spec:
`elements.py` is not among the sources; the element contract exposes a
fluid/solid flag and one or more integer labels, which is all
`geometry.py` reads (`elem.isfluid`, `elem.label`). -/
structure Element where
  isfluid : Bool
  label : List Int
deriving DecidableEq

/-- The `label` entry of the box dictionary: an integer, a list, or some
other value (the code tests `isinstance(int)` then `isinstance(list)`). -/
inductive LabelSpec where
  | int : Int → LabelSpec
  | list : List Int → LabelSpec
  | other : LabelSpec
deriving DecidableEq

/-- The `box` sub-dictionary: per-axis bound pairs (`x` required by the
parser, `y` and `z` optional) and the optional `label` entry.  A key that is
absent or maps to `None` is `none` (the code reads `y`/`z` with
`box.get(key, None)`). -/
structure BoxSpec where
  x : Option (ℚ × ℚ)
  y : Option (ℚ × ℚ)
  z : Option (ℚ × ℚ)
  label : Option LabelSpec
deriving DecidableEq

/-- The geometry dictionary: the box and the optional element list
(`dico.get('elements', None)`, absent list embedded as `[]`). -/
structure GeomSpec where
  box : BoxSpec
  elements : List Element
deriving DecidableEq

/-- Modelled from the spec: the failure channel.  `geometry.py` reports
malformed input through `self.log.error` from `logs.py`, which is not among
the sources; the spec states every such failure surfaces as a fatal
`SpecificationError` raised at construction time, before any decomposition
work, so the logger's error call is embedded as an `Except.error`. -/
inductive SpecErr where
  | missingX
  | badLabelSize
  | badLabelType
deriving DecidableEq

/-- `get_box` (geometry.py lines 44-61): dimension starts at 1 with the
required `x` pair; `y`, when present, appends its pair and makes the
dimension 2; `z` is consulted only when `y` was present and then makes the
dimension 3.  A missing `x` is the error path (logged, embedded as raising
per the spec). -/
def get_box (box : BoxSpec) : Except SpecErr (Nat × List (ℚ × ℚ)) :=
  match box.x with
  | none => .error .missingX
  | some bx =>
    match box.y with
    | none => .ok (1, [bx])
    | some bndy =>
      match box.z with
      | none => .ok (2, [bx, bndy])
      | some bz => .ok (3, [bx, bndy, bz])

/-- Label resolution (geometry.py lines 117-125): default `-1`; an integer
is broadcast to all `2*dim` faces; a list is checked for length `2*dim`
(wrong size is the logged error, embedded as raising per the spec) and taken
verbatim; any other value is an error. -/
def resolveLabels (dim : Nat) : Option LabelSpec → Except SpecErr (List Int)
  | none => .ok (List.replicate (2 * dim) (-1))
  | some (.int n) => .ok (List.replicate (2 * dim) n)
  | some (.list l) =>
      if l.length = 2 * dim then .ok l else .error .badLabelSize
  | some .other => .error .badLabelType

/-- Periodicity derivation (geometry.py lines 127-130): axis `i` is periodic
iff `box_label[2*i] == box_label[2*i+1] == -1` (Python chained comparison),
computed from the labels as resolved, before the interface override. -/
def periodFromLabels (dim : Nat) (labels : List Int) : List Bool :=
  (List.range dim).map fun i =>
    decide (labels.getD (2 * i) 0 = labels.getD (2 * i + 1) 0 ∧
            labels.getD (2 * i + 1) 0 = -1)

/-- The data `geometry.py` reads from the `Interface` topology object
(module not among the sources): `self.interface.split`,
`self.interface.get_coords()`, and per axis the pair of booleans
"`Shift(i,1)` neighbor exists in the negative / positive direction". -/
structure Topology where
  split : List Nat
  coords : List Nat
  neighbors : List (Bool × Bool)
deriving DecidableEq

/-- Domain decomposition (geometry.py lines 137-140), elementwise rendering
of the vectorized numpy computation: per axis
`t = (high - low)/split`, then the new high `low + t*(coords+1)` and the new
low `low + t*coords`, both anchored at the original global low (the code
overwrites column 1 first, so column 0 still holds the unmutated low when
both are computed). -/
def decompose : List (ℚ × ℚ) → List Nat → List Nat → List (ℚ × ℚ)
  | b :: bs, s :: ss, c :: cs =>
      let t : ℚ := (b.2 - b.1) / (s : ℚ)
      (b.1 + t * c, b.1 + t * (c + 1)) :: decompose bs ss cs
  | _, _, _ => []

/-- Interface override (geometry.py lines 142-148): for each axis `i`, when
a neighbor exists in the negative direction set `box_label[2*i] = -2`, and
when one exists in the positive direction set `box_label[2*i+1] = -2`; the
loop touches no other entry.  Rendered as structural recursion consuming two
labels per axis flag pair. -/
def overrideLabels : List Int → List (Bool × Bool) → List Int
  | l, [] => l
  | [], _ :: _ => []
  | [a], n :: _ => [if n.1 then -2 else a]
  | a :: b :: l, n :: ns =>
      (if n.1 then -2 else a) :: (if n.2 then -2 else b) :: overrideLabels l ns

/-- The assembled `Geometry` object: dimension, global bounds, local bounds
(`self.bounds`), face labels after the override, the periodicity vector that
was passed to the `Interface` constructor, and the element registry. -/
structure Geometry where
  dim : Nat
  globalbounds : List (ℚ × ℚ)
  bounds : List (ℚ × ℚ)
  box_label : List Int
  period : List Bool
  list_elem : List Element
deriving DecidableEq

/-- `Geometry.__init__` (geometry.py lines 111-157): parse the box, resolve
the initial labels, derive periodicity from them, hand the periodicity to
the topology, decompose the global bounds with the topology's split factors
and coordinates, override interface faces, and populate the element list in
declaration order. -/
def geometryMk (spec : GeomSpec) (topo : Topology) : Except SpecErr Geometry :=
  match get_box spec.box with
  | .error e => .error e
  | .ok (dim, gb) =>
    match resolveLabels dim spec.box.label with
    | .error e => .error e
    | .ok lab0 =>
      .ok { dim := dim, globalbounds := gb,
            bounds := decompose gb topo.split topo.coords,
            box_label := overrideLabels lab0 topo.neighbors,
            period := periodFromLabels dim lab0,
            list_elem := spec.elements }

/-- `Geometry.add_elem` (geometry.py lines 170-179): append the element to
`self.list_elem`. -/
def add_elem (g : Geometry) (e : Element) : Geometry :=
  { g with list_elem := g.list_elem ++ [e] }

/-- `np.unique`: the sorted list of the distinct entries. -/
def npUnique (l : List Int) : List Int :=
  List.insertionSort (· ≤ ·) l.dedup

/-- `np.union1d`: the sorted distinct union of two label lists. -/
def union1d (a b : List Int) : List Int :=
  npUnique (a ++ b)

/-- `Geometry.list_of_labels` (geometry.py lines 288-295):
`np.unique(box_label)` folded with `np.union1d` over each element's labels. -/
def list_of_labels (g : Geometry) : List Int :=
  g.list_elem.foldl (fun L e => union1d L e.label) (npUnique g.box_label)

deriving instance DecidableEq for Except

/-- The override of an empty flag list leaves the labels untouched. -/
theorem overrideLabels_nil (l : List Int) : overrideLabels l [] = l := by
  cases l with
  | nil => rfl
  | cons a l' => cases l' <;> rfl

/-- Claim C9: `add_elem` appends the element as the last entry of the
element list and leaves every other field of the geometry — dimension,
global bounds, local bounds, face labels, periodicity — and all previously
stored elements, in order, unchanged; the element list only grows. -/
theorem add_elem_frame (g : Geometry) (e : Element) :
    (add_elem g e).list_elem = g.list_elem ++ [e] ∧
    (add_elem g e).dim = g.dim ∧
    (add_elem g e).globalbounds = g.globalbounds ∧
    (add_elem g e).bounds = g.bounds ∧
    (add_elem g e).box_label = g.box_label ∧
    (add_elem g e).period = g.period :=
  ⟨rfl, rfl, rfl, rfl, rfl, rfl⟩

/-- Claim C7: the interface-override pass is idempotent — applying it twice
with the same neighbor flags yields the same label list as applying it
once. -/
theorem overrideLabels_idem (L : List Int) (nb : List (Bool × Bool)) :
    overrideLabels (overrideLabels L nb) nb = overrideLabels L nb := by
  induction nb generalizing L with
  | nil => simp [overrideLabels_nil]
  | cons n ns ih =>
    obtain _ | ⟨a, _ | ⟨b, l⟩⟩ := L
    · rfl
    · cases hn : n.1 <;> simp [overrideLabels, hn]
    · cases hn : n.1 <;> cases hm : n.2 <;> simp [overrideLabels, hn, hm, ih]

/-- Claim C1: when the box `label` value is a list, a length different from
`2*dim` makes construction fail with the specification error (for every
topology, hence before any decomposition work), while a list of length
exactly `2*dim` is accepted verbatim as the pre-override label list and
construction succeeds. -/
theorem resolveLabels_list_shape (spec : GeomSpec) (topo : Topology)
    (dim : Nat) (gb : List (ℚ × ℚ)) (lab : List Int)
    (hbox : get_box spec.box = .ok (dim, gb))
    (hlab : spec.box.label = some (.list lab)) :
    (lab.length ≠ 2 * dim → geometryMk spec topo = .error .badLabelSize) ∧
    (lab.length = 2 * dim →
      resolveLabels dim spec.box.label = .ok lab ∧
      ∃ g, geometryMk spec topo = .ok g ∧ g.box_label = overrideLabels lab topo.neighbors) := by
  constructor
  · intro hne
    simp [geometryMk, hbox, hlab, resolveLabels, hne]
  · intro he
    refine ⟨by simp [resolveLabels, hlab, he], ?_⟩
    refine ⟨⟨dim, gb, decompose gb topo.split topo.coords,
      overrideLabels lab topo.neighbors, periodFromLabels dim lab,
      spec.elements⟩, ?_, rfl⟩
    simp [geometryMk, hbox, hlab, resolveLabels, he]

/-- Witness for C1: a 1-D box with a three-entry label list is rejected
with the label-size error. -/
theorem resolveLabels_list_shape_witness :
    geometryMk ⟨⟨some (0, 1), none, none, some (.list [5, 6, 7])⟩, []⟩
      ⟨[1], [0], [(false, false)]⟩ = .error .badLabelSize :=
  (resolveLabels_list_shape ⟨⟨some (0, 1), none, none, some (.list [5, 6, 7])⟩, []⟩
    ⟨[1], [0], [(false, false)]⟩ 1 [(0, 1)] [5, 6, 7] (by decide) rfl).1 (by decide)

/-- Claim C3: on every axis `d` (with the three topology lists long enough
and a positive split factor) the decomposed bounds are
`low + step * coords` and `low + step * (coords + 1)` with
`step = (high - low) / split`, both anchored at the original global low. -/
theorem decompose_local_bounds (B : List (ℚ × ℚ)) (S C : List Nat) (d : Nat)
    (hB : d < B.length) (hS : d < S.length) (hC : d < C.length)
    (hpos : 0 < S.getD d 0) :
    (decompose B S C).getD d (0, 0) =
      ((B.getD d (0, 0)).1 +
         ((B.getD d (0, 0)).2 - (B.getD d (0, 0)).1) / (S.getD d 0 : ℚ) *
           (C.getD d 0 : ℚ),
       (B.getD d (0, 0)).1 +
         ((B.getD d (0, 0)).2 - (B.getD d (0, 0)).1) / (S.getD d 0 : ℚ) *
           ((C.getD d 0 : ℚ) + 1)) := by
  induction B generalizing S C d with
  | nil => simp at hB
  | cons b bs ih =>
    cases S with
    | nil => simp at hS
    | cons s ss =>
      cases C with
      | nil => simp at hC
      | cons c cs =>
        cases d with
        | zero => simp [decompose]
        | succ d =>
          simpa [decompose, List.getD_cons_succ] using
            ih ss cs d (by simpa using hB) (by simpa using hS)
              (by simpa using hC) (by simpa using hpos)

/-- Witness for C3: the box `x = (0, 2)` under the identity split, this
process at coordinate 0, owns the whole interval. -/
theorem decompose_local_bounds_witness :
    (decompose [((0 : ℚ), 2)] [1] [0]).getD 0 (0, 0) = (0, 2) := by
  have h := decompose_local_bounds [((0 : ℚ), 2)] [1] [0] 0
    (by decide) (by decide) (by decide) (by decide)
  rw [h]
  simp

/-- The interface override preserves the length of the label list. -/
theorem overrideLabels_length (L : List Int) (nb : List (Bool × Bool)) :
    (overrideLabels L nb).length = L.length := by
  induction nb generalizing L with
  | nil => simp [overrideLabels_nil]
  | cons n ns ih =>
    obtain _ | ⟨a, _ | ⟨b, l⟩⟩ := L
    · rfl
    · simp [overrideLabels]
    · simp [overrideLabels, ih]

/-- Claim C5: when the label list covers all `2*dim` faces, the override
pass writes `-2` at position `2d` exactly when the negative-direction
neighbor flag of axis `d` is set, writes `-2` at position `2d+1` exactly
when the positive-direction flag is set, keeps the previous value at an
unflagged face, and leaves every position beyond the flagged axes
unchanged. -/
theorem overrideLabels_pointwise (L : List Int) (nb : List (Bool × Bool))
    (h : 2 * nb.length ≤ L.length) :
    (∀ d, d < nb.length →
      ((overrideLabels L nb).getD (2 * d) 0 =
        if (nb.getD d (false, false)).1 then -2 else L.getD (2 * d) 0) ∧
      ((overrideLabels L nb).getD (2 * d + 1) 0 =
        if (nb.getD d (false, false)).2 then -2 else L.getD (2 * d + 1) 0)) ∧
    (∀ j, 2 * nb.length ≤ j →
      (overrideLabels L nb).getD j 0 = L.getD j 0) := by
  induction nb generalizing L with
  | nil =>
    refine ⟨fun d hd => absurd hd (by simp), fun j _ => by rw [overrideLabels_nil]⟩
  | cons n ns ih =>
    obtain _ | ⟨a, _ | ⟨b, l⟩⟩ := L
    · exfalso; simp only [List.length_cons, List.length_nil] at h; omega
    · exfalso; simp only [List.length_cons, List.length_nil] at h; omega
    · have hlen : 2 * ns.length ≤ l.length := by
        simp only [List.length_cons] at h; omega
      obtain ⟨ih1, ih2⟩ := ih l hlen
      constructor
      · intro d hd
        cases d with
        | zero =>
          constructor
          · simp [overrideLabels]
          · simp [overrideLabels]
        | succ d =>
          have hd' : d < ns.length := by
            simp only [List.length_cons] at hd; omega
          constructor
          · have e1 : 2 * (d + 1) = 2 * d + 1 + 1 := by omega
            rw [e1]
            simp only [overrideLabels, List.getD_cons_succ]
            exact (ih1 d hd').1
          · have e2 : 2 * (d + 1) + 1 = 2 * d + 1 + 1 + 1 := by omega
            rw [e2]
            simp only [overrideLabels, List.getD_cons_succ]
            exact (ih1 d hd').2
      · intro j hj
        obtain ⟨j', rfl⟩ : ∃ j', j = j' + 1 + 1 :=
          ⟨j - 2, by simp only [List.length_cons] at hj; omega⟩
        simp only [overrideLabels, List.getD_cons_succ]
        exact ih2 j' (by simp only [List.length_cons] at hj; omega)

/-- Witness for C5: labels `[1, 2, 3, 4]`, a negative neighbor on axis 0
and a positive neighbor on axis 1: faces 0 and 3 become `-2`, face 1 keeps
its label `2`. -/
theorem overrideLabels_pointwise_witness :
    (overrideLabels [1, 2, 3, 4] [(true, false), (false, true)]).getD 0 0 = -2 ∧
    (overrideLabels [1, 2, 3, 4] [(true, false), (false, true)]).getD 3 0 = -2 ∧
    (overrideLabels [1, 2, 3, 4] [(true, false), (false, true)]).getD 1 0 = 2 := by
  have h := overrideLabels_pointwise [1, 2, 3, 4] [(true, false), (false, true)]
    (by decide)
  refine ⟨?_, ?_, ?_⟩
  · simpa using (h.1 0 (by decide)).1
  · simpa using (h.1 1 (by decide)).2
  · simpa using (h.1 0 (by decide)).2

/-- Under the exact-rational embedding an identity split (factor 1,
coordinate 0 on every axis) reproduces the global bounds; whether the
numpy float64 computation reproduces them bitwise is a rounding question
outside this embedding. -/
theorem decompose_identity_split (B : List (ℚ × ℚ)) :
    decompose B (List.replicate B.length 1) (List.replicate B.length 0) = B := by
  induction B with
  | nil => rfl
  | cons b bs ih =>
    simp only [List.length_cons, List.replicate_succ, decompose, ih]
    simp only [Nat.cast_one, Nat.cast_zero, div_one, mul_zero, add_zero,
      zero_add, mul_one, List.cons.injEq, and_true]
    exact Prod.ext rfl (by ring)

/-- Claim C6: in a successful construction, the periodicity vector handed
to the topology says, for each axis, that both of the axis's pre-override
face labels equal `-1`; it is a function of the resolved labels alone, so
any other topology (split factors, coordinates, neighbor flags) yields the
same periodicity for the same specification. -/
theorem period_preoverride (spec : GeomSpec) (topo : Topology) (g : Geometry)
    (dim : Nat) (gb : List (ℚ × ℚ)) (lab0 : List Int)
    (hbox : get_box spec.box = .ok (dim, gb))
    (hlab : resolveLabels dim spec.box.label = .ok lab0)
    (h : geometryMk spec topo = .ok g) :
    g.period = (List.range dim).map
      (fun i => decide (lab0.getD (2 * i) 0 = -1 ∧ lab0.getD (2 * i + 1) 0 = -1)) ∧
    (∀ topo' : Topology, ∀ g' : Geometry,
      geometryMk spec topo' = .ok g' → g'.period = g.period) := by
  have hg : g.period = periodFromLabels dim lab0 := by
    simp only [geometryMk, hbox, hlab] at h
    cases h
    rfl
  constructor
  · rw [hg]
    simp only [periodFromLabels]
    refine List.map_congr_left fun i _ => ?_
    rw [decide_eq_decide]
    constructor
    · rintro ⟨h1, h2⟩; exact ⟨h1.trans h2, h2⟩
    · rintro ⟨h1, h2⟩; exact ⟨h1.trans h2.symm, h2⟩
  · intro topo' g' h'
    have hg' : g'.period = periodFromLabels dim lab0 := by
      simp only [geometryMk, hbox, hlab] at h'
      cases h'
      rfl
    rw [hg', hg]

/-- Witness for C6: the unlabeled (all `-1`) 1-D box is periodic on its
single axis. -/
theorem period_preoverride_witness :
    (⟨1, [(0, 1)], [(0, 1)], [-1, -1], [true], []⟩ : Geometry).period = [true] := by
  have h := (period_preoverride ⟨⟨some (0, 1), none, none, none⟩, []⟩
    ⟨[1], [0], [(false, false)]⟩ ⟨1, [(0, 1)], [(0, 1)], [-1, -1], [true], []⟩
    1 [(0, 1)] [-1, -1] (by decide) (by decide)
    (by simp [geometryMk, get_box, resolveLabels, decompose, periodFromLabels,
          overrideLabels, List.range_succ])).1
  rw [h]
  simp [List.range_succ]

/-- Membership in `npUnique` is membership in the original list. -/
theorem mem_npUnique {a : Int} {l : List Int} : a ∈ npUnique l ↔ a ∈ l := by
  unfold npUnique
  rw [(List.perm_insertionSort _ _).mem_iff, List.mem_dedup]

/-- `npUnique` returns a duplicate-free list. -/
theorem npUnique_nodup (l : List Int) : (npUnique l).Nodup :=
  ((List.perm_insertionSort _ _).nodup_iff).mpr (List.nodup_dedup l)

/-- `npUnique` returns a strictly sorted list. -/
theorem npUnique_sorted (l : List Int) : List.Sorted (· < ·) (npUnique l) :=
  (List.sorted_insertionSort _ _).lt_of_le (npUnique_nodup l)

/-- Membership in `union1d` is membership in either argument. -/
theorem mem_union1d {a : Int} {l m : List Int} :
    a ∈ union1d l m ↔ a ∈ l ∨ a ∈ m := by
  unfold union1d
  rw [mem_npUnique, List.mem_append]

/-- Membership in the `list_of_labels` fold over the element registry. -/
theorem mem_labels_foldl (es : List Element) (L : List Int) (x : Int) :
    x ∈ es.foldl (fun L e => union1d L e.label) L ↔
      x ∈ L ∨ ∃ e ∈ es, x ∈ e.label := by
  induction es generalizing L with
  | nil => simp
  | cons e es ih =>
    rw [List.foldl_cons, ih, mem_union1d]
    simp only [List.mem_cons]
    constructor
    · rintro ((hL | he) | ⟨e', he', hx⟩)
      · exact Or.inl hL
      · exact Or.inr ⟨e, Or.inl rfl, he⟩
      · exact Or.inr ⟨e', Or.inr he', hx⟩
    · rintro (hL | ⟨e', (rfl | he'), hx⟩)
      · exact Or.inl (Or.inl hL)
      · exact Or.inl (Or.inr hx)
      · exact Or.inr ⟨e', he', hx⟩

/-- Claim C8: `list_of_labels` enumerates exactly the union of the face
labels of `box_label` (the sentinels `-1` and `-2` included as-is) and
every registered element's own labels. -/
theorem list_of_labels_mem (g : Geometry) (x : Int) :
    x ∈ list_of_labels g ↔ x ∈ g.box_label ∨ ∃ e ∈ g.list_elem, x ∈ e.label := by
  unfold list_of_labels
  rw [mem_labels_foldl, mem_npUnique]

/-- The `list_of_labels` fold always produces an `npUnique` image. -/
theorem foldl_union1d_shape (es : List Element) (m : List Int) :
    ∃ m', es.foldl (fun L e => union1d L e.label) (npUnique m) = npUnique m' := by
  induction es generalizing m with
  | nil => exact ⟨m, rfl⟩
  | cons e es ih =>
    rw [List.foldl_cons]
    exact ih (npUnique m ++ e.label)

/-- Claim C10: the value of `list_of_labels` is duplicate-free and sorted
in strictly ascending order, for every geometry (hence regardless of the
declaration order of face labels or elements). -/
theorem list_of_labels_sorted (g : Geometry) :
    (list_of_labels g).Nodup ∧ List.Sorted (· < ·) (list_of_labels g) := by
  obtain ⟨m, hm⟩ := foldl_union1d_shape g.list_elem g.box_label
  unfold list_of_labels
  rw [hm]
  exact ⟨npUnique_nodup m, npUnique_sorted m⟩

/-- Counterexample to C2: the box `x = (3, 1)` (not an ordered pair with
low < high) with a `z` entry declared without `y` does not fail; it
produces the 1-D geometry with the reversed bounds taken verbatim and the
`z` entry silently ignored. -/
theorem geometryMk_malformed_cex :
    geometryMk ⟨⟨some (3, 1), none, some (0, 1), none⟩, []⟩
      ⟨[1], [0], [(false, false)]⟩ =
      .ok ⟨1, [(3, 1)], [(3, 1)], [-1, -1], [true], []⟩ := by
  simp only [geometryMk, get_box, resolveLabels, decompose, periodFromLabels,
    overrideLabels, List.range_succ]
  norm_num

/-- Claim C2 as amended: a missing `x` fails with the specification error;
a `z` declared without `y` is silently ignored (the construction result is
the one with `z` erased), and no low < high check is performed — any
specification with `x` present and no label entry produces a geometry. -/
theorem geometryMk_malformed_amended (spec : GeomSpec) (topo : Topology) :
    (spec.box.x = none → geometryMk spec topo = .error .missingX) ∧
    (spec.box.y = none →
      geometryMk spec topo =
        geometryMk ⟨⟨spec.box.x, none, none, spec.box.label⟩, spec.elements⟩ topo) ∧
    (spec.box.x ≠ none → spec.box.label = none →
      ∃ g, geometryMk spec topo = .ok g) := by
  obtain ⟨⟨x, y, z, lab⟩, es⟩ := spec
  refine ⟨?_, ?_, ?_⟩
  · intro hx
    cases hx
    simp [geometryMk, get_box]
  · intro hy
    cases hy
    cases x <;> rfl
  · intro hx hlab
    cases hlab
    cases x with
    | none => exact absurd rfl hx
    | some bx => cases y <;> cases z <;> exact ⟨_, rfl⟩

/-- Witness for the amended C2: erasing the ignored `z` entry does not
change the constructed geometry. -/
theorem geometryMk_malformed_amended_witness :
    geometryMk ⟨⟨some (3, 1), none, some (0, 1), none⟩, []⟩
      ⟨[1], [0], [(false, false)]⟩ =
      geometryMk ⟨⟨some (3, 1), none, none, none⟩, []⟩
        ⟨[1], [0], [(false, false)]⟩ :=
  (geometryMk_malformed_amended ⟨⟨some (3, 1), none, some (0, 1), none⟩, []⟩
    ⟨[1], [0], [(false, false)]⟩).2.1 rfl

end PyLBM
